import Mathlib

/-!
# System-Moniter-Tool: a shallow embedding of the dashboard core

Embedded sources: `Process.h`, `Ui.h`, `Ui.cpp`, `SystemMonitor.cpp`, `main.cpp`.

Conventions of the embedding
* `int` values are `Int`; the arithmetic the code performs on them (`rows - 6`,
  `selected_index + 1`, `selected_index - max_display + 1`, `++`, `--`) stays far from
  the 32-bit limits for terminal sizes and process counts, so no wrap is modelled there.
* `uint64_t` / `size_t` values are `Nat` reduced `% 2 ^ 64` wherever the code adds or
  subtracts them.
* `double` values that the code only stores, compares, subtracts and divides are exact
  rationals (`Rat`): every finite double is a rational and the comparison of finite
  doubles is the comparison of those rationals (NaN, on which the comparators of the sort
  are no strict order, is outside the model).  Rounding of the arithmetic is not
  modelled; the concrete evaluations below use values on which double arithmetic is exact.
* `std::string` is `String`, its `size()` the number of characters.  A string holds at
  most `cap` characters, a parameter standing for what the library's `max_size()` and the
  memory of the process allow; growing a string beyond it throws, and a throw is carried
  as an explicit result (`none`, the flag `thrown`).
* Terminal text (`mvprintw`, `attron`, windows) is not modelled, except for the table
  rows that `draw_processes` paints; calls of `kill` are recorded in a log.
-/

namespace SysMon

/-! ## Process.h -/

/-- The record `struct Process`, with the defaults of its member initialisers. -/
structure Process where
  pid : Int := 0
  user : String := ""
  name : String := ""
  cmdline : String := ""
  utime : Nat := 0
  stime : Nat := 0
  total_time : Nat := 0
  time_seconds : Rat := 0
  cpu_percent : Rat := 0
  mem_kb : Nat := 0
  vsize : Nat := 0
  num_threads : Int := 0
  starttime : Nat := 0
  nice_value : Int := 0
deriving DecidableEq, Repr

instance : Inhabited Process := ⟨{}⟩

/-! ## Ui.h -/

/-- The enumeration `enum class SortMode`. -/
inductive SortMode where
  | CPU
  | MEM
  | PID
deriving DecidableEq, Repr

/-- The data members of `class Ui` (the `monitor` reference is passed to the operations as
the process list and the counter readings they obtain from it). -/
structure Ui where
  sort_mode : SortMode := SortMode.CPU
  selected_index : Int := 0
  refresh_interval : Int := 2
  running : Bool := true
deriving DecidableEq, Repr

/-- The setter `Ui::set_sort_mode`. -/
def set_sort_mode (u : Ui) (m : SortMode) : Ui :=
  { u with sort_mode := m }

/-- The setter `Ui::set_refresh_interval`: `if (s >= 1) refresh_interval = s;`. -/
def set_refresh_interval (u : Ui) (s : Int) : Ui :=
  if s ≥ 1 then { u with refresh_interval := s } else u

/-! ## The sort block shared by `Ui::draw_processes` and `Ui::handle_input` -/

/-- One insertion step of the library sort: `x`, which stood in front of the elements of
the sorted tail, passes the elements that `comp` orders before it and stops at the first
one that `comp` does not. -/
def sort_insert {α : Type} (comp : α → α → Bool) (x : α) : List α → List α
  | [] => [x]
  | y :: ys => if comp y x then y :: sort_insert comp x ys else x :: y :: ys

/-- The library routine `std::sort(first, last, comp)`, which is not part of the repository:
a comparison sort driven by the strict comparator `comp` (insertion sort, the routine the
standard libraries run on short ranges; it moves an element only past elements that
`comp` orders after it, so elements that `comp` does not separate keep their order).  The
order of such elements is the library's choice; nothing below depends on it. -/
def std_sort {α : Type} (comp : α → α → Bool) : List α → List α
  | [] => []
  | x :: xs => sort_insert comp x (std_sort comp xs)

/-- Comparator of the CPU branch: `a.cpu_percent > b.cpu_percent`. -/
def comp_cpu (a b : Process) : Bool := decide (a.cpu_percent > b.cpu_percent)

/-- Comparator of the MEM branch: `a.mem_kb > b.mem_kb`. -/
def comp_mem (a b : Process) : Bool := decide (a.mem_kb > b.mem_kb)

/-- Comparator of the PID branch: `a.pid < b.pid`. -/
def comp_pid (a b : Process) : Bool := decide (a.pid < b.pid)

/-- The `if (sort_mode == CPU) ... else if (sort_mode == MEM) ... else ...` sort block. -/
def sort_procs (mode : SortMode) (procs : List Process) : List Process :=
  if mode = SortMode.CPU then std_sort comp_cpu procs
  else if mode = SortMode.MEM then std_sort comp_mem procs
  else std_sort comp_pid procs

/-- The three processes of the specification's ordering example. -/
def example_procs : List Process :=
  [ { pid := 10, cpu_percent := 5, mem_kb := 200 },
    { pid := 20, cpu_percent := 50, mem_kb := 100 },
    { pid := 30, cpu_percent := 10, mem_kb := 500 } ]

/-! ## Ui.cpp: `pad_or_trim` -/

/-- The loop `while (out.size() < width) out += ' ';`.  Appending to a string that already
holds `cap` characters throws (`std::length_error` or `std::bad_alloc`): the result
`none`.  `fuel` bounds the iterations; with `width - out.size()` of it the loop ends by
its own condition or by the throw (`pad_loop_eq`). -/
def pad_loop (cap width : Nat) : Nat → String → Option String
  | 0, out => some out
  | fuel + 1, out =>
    if out.length < width then
      if out.length < cap then pad_loop cap width fuel (out ++ " ") else none
    else some out

/-- The helper `pad_or_trim(s, width)`; `none` when it throws.  `width` is a `size_t`, so
`width - 3` is taken modulo `2 ^ 64`; `s.substr(0, k)` keeps the first `k` characters, or
all of `s` when it has fewer.  The trimmed text has at most three characters more than
`s`, a string that exists, and is taken to fit; only the padding loop can outgrow `cap`. -/
def pad_or_trim (cap : Nat) (s : String) (width : Nat) : Option String :=
  if s.length > width then
    some (String.mk (s.data.take ((width + 2 ^ 64 - 3) % 2 ^ 64)) ++ "...")
  else pad_loop cap width (width - s.length) s

/-! ## Ui.cpp: `Ui::draw_processes` -/

/-- One table row painted by the `mvprintw` of the drawing loop: the screen row, the
index into the sorted list, the reverse-video flag, the process read at that index and
the text of the COMMAND column. -/
structure DrawnRow where
  row : Int
  idx : Int
  is_selected : Bool
  proc : Process
  command : String
deriving DecidableEq, Repr

/-- The column budget `(size_t)cols - 50` that the drawing loop passes to `pad_or_trim`:
a `size_t` subtraction, which wraps for `cols < 50`. -/
def command_width (cols : Int) : Nat := ((cols - 50) % 2 ^ 64).toNat

/-- The loop `for (int i = 0; i < max_display && (i + offset) < (int)procs.size(); ++i)`,
started at `i` with `fuel` iterations allowed.  The result is the rows painted and whether
the loop was left by a throw: the arguments of `mvprintw` are evaluated before the call,
so when `pad_or_trim` throws, the row of that iteration is not painted and the loop is
over. -/
def draw_loop (cap : Nat) (procs : List Process)
    (selected_index offset max_display cols : Int) : Nat → Int → List DrawnRow × Bool
  | 0, _ => ([], false)
  | fuel + 1, i =>
    if i < max_display ∧ i + offset < (procs.length : Int) then
      let idx := i + offset
      match pad_or_trim cap (procs.getD idx.toNat default).name (command_width cols) with
      | none => ([], true)
      | some text =>
        let rest := draw_loop cap procs selected_index offset max_display cols fuel (i + 1)
        ({ row := 4 + i
           idx := idx
           is_selected := decide (idx = selected_index)
           proc := procs.getD idx.toNat default
           command := text } :: rest.1, rest.2)
    else ([], false)

/-- The window start: `offset = 0; if (selected_index >= max_display) offset =
selected_index - max_display + 1;`. -/
def window_offset (selected_index max_display : Int) : Int :=
  if selected_index ≥ max_display then selected_index - max_display + 1 else 0

/-- The two clamping statements of `draw_processes`, in the order of the source. -/
def clamp_selection (selected_index n : Int) : Int :=
  let s := if selected_index < 0 then 0 else selected_index
  if s ≥ n then n - 1 else s

/-- The method `Ui::draw_processes(rows, cols)` on the process list `procs` returned by
the monitor.  The result is the Ui as the method leaves it, the table rows painted and
whether the method was left by a throw of `pad_or_trim`.  The loop gets `max_display`
iterations of fuel, which it never exhausts (`draw_loop_fuel`). -/
def draw_processes (cap : Nat) (procs : List Process) (rows cols : Int) (u : Ui) :
    Ui × List DrawnRow × Bool :=
  let sorted := sort_procs u.sort_mode procs
  let max_display := rows - 6
  if max_display < 1 then (u, [], false)
  else
    let sel := clamp_selection u.selected_index (sorted.length : Int)
    let offset := window_offset sel max_display
    ({ u with selected_index := sel },
      draw_loop cap sorted sel offset max_display cols max_display.toNat 0)

/-! ## SystemMonitor.cpp: `SystemMonitor::get_cpu_usage_percent` -/

/-- The four entries of `cpuinfo.cpu_ticks` read by a successful `host_statistics`. -/
structure CpuTicks where
  user : Nat
  system : Nat
  idle : Nat
  nice : Nat
deriving DecidableEq, Repr

/-- The function-local statics `prev_total`, `prev_idle`, both initialised to 0. -/
structure CpuStatics where
  prev_total : Nat := 0
  prev_idle : Nat := 0
deriving DecidableEq, Repr

/-- Subtraction of two `uint64_t` values. -/
def u64_sub (a b : Nat) : Nat := (a % 2 ^ 64 + 2 ^ 64 - b % 2 ^ 64) % 2 ^ 64

/-- The local `idle`: the idle counter stored into a `uint64_t`. -/
def ticks_idle (t : CpuTicks) : Nat := t.idle % 2 ^ 64

/-- The local `total = user + sys + idle + nice`, a `uint64_t` sum. -/
def ticks_total (t : CpuTicks) : Nat :=
  (t.user % 2 ^ 64 + t.system % 2 ^ 64 + t.idle % 2 ^ 64 + t.nice % 2 ^ 64) % 2 ^ 64

/-- The method `SystemMonitor::get_cpu_usage_percent`.  `read` is the outcome of
`host_statistics` (`none` when `kr != KERN_SUCCESS`); the statics are threaded through.
The differences are computed in `uint64_t` and only then converted to `double`. -/
def get_cpu_usage_percent (read : Option CpuTicks) (st : CpuStatics) : Rat × CpuStatics :=
  match read with
  | none => (0, st)
  | some t =>
    let idle := ticks_idle t
    let total := ticks_total t
    let diff_total : Rat := (u64_sub total st.prev_total : Nat)
    let diff_idle : Rat := (u64_sub idle st.prev_idle : Nat)
    let st' : CpuStatics := { prev_total := total, prev_idle := idle }
    if diff_total ≤ 0 then (0, st')
    else (100 * (1 - diff_idle / diff_total), st')

/-! ## Ui.cpp: `Ui::draw`, `show_process_popup`, `Ui::handle_input` -/

/-- Key codes of `ncurses.h` and signal numbers of `signal.h`. -/
def ERR : Int := -1
def KEY_DOWN : Int := 258
def KEY_UP : Int := 259
def KEY_ENTER : Int := 343
def SIGKILL : Int := 9
def SIGTERM : Int := 15

/-- The `int` value of a character literal such as `'q'`. -/
def key (c : Char) : Int := (c.toNat : Int)

/-- A call `kill(pid, sig)`. -/
structure KillCall where
  pid : Int
  sig : Int
deriving DecidableEq, Repr

/-- Everything the dashboard mutates: the Ui members, the statics of the CPU sampler,
the log of `kill` calls, the table rows of the last repaint, and whether an exception has
left the Ui (it ends `Ui::run`; `main` catches it and exits). -/
structure World where
  ui : Ui := {}
  cpu : CpuStatics := {}
  kills : List KillCall := []
  table : List DrawnRow := []
  thrown : Bool := false
deriving DecidableEq, Repr

/-- What one call of `Ui::handle_input` reads from its collaborators:
`ch` is the first `getch()` (`ERR` when no key is pending), `procs` the list
`monitor.get_processes()`, `reply` the key returned by the blocking read that follows a
prompt (`getch()` after "Kill PID ...?", `wgetch(win)` in the popup), `rows`/`cols` the
size `getmaxyx` reports during a repaint and `ticks` the counter reading of that repaint. -/
structure Input where
  ch : Int
  procs : List Process := []
  reply : Int := -1
  rows : Int := 24
  cols : Int := 80
  ticks : Option CpuTicks := none
deriving DecidableEq, Repr

/-- The method `Ui::draw`: `draw_header` (whose only state change is the call of
`get_cpu_usage_percent`) followed by `draw_processes`. -/
def draw (cap : Nat) (inp : Input) (w : World) : World :=
  let cpu' := (get_cpu_usage_percent inp.ticks w.cpu).2
  let r := draw_processes cap inp.procs inp.rows inp.cols w.ui
  { w with ui := r.1, cpu := cpu', table := r.2.1, thrown := r.2.2 }

/-- The function `show_process_popup`: reads one key in the popup window and, for `k` or
`K`, calls `kill(p.pid, sig)`; returns the `kill` calls made. -/
def show_process_popup (p : Process) (ch : Int) : List KillCall :=
  if ch = key 'k' ∨ ch = key 'K' then
    [{ pid := p.pid, sig := if ch = key 'k' then SIGTERM else SIGKILL }]
  else []

/-- The method `Ui::handle_input`, one call.  A throw of the repaint in the Enter case
leaves the method with the flag `thrown` set. -/
def handle_input (cap : Nat) (inp : Input) (w : World) : World :=
  let ch := inp.ch
  if ch = ERR then w
  else
    let procs := sort_procs w.ui.sort_mode inp.procs
    let display_count : Int := (procs.length : Int)
    let sel := w.ui.selected_index
    if ch = key 'q' ∨ ch = key 'Q' then
      { w with ui := { w.ui with running := false } }
    else if ch = KEY_UP then
      if sel > 0 then { w with ui := { w.ui with selected_index := sel - 1 } } else w
    else if ch = KEY_DOWN then
      if sel + 1 < display_count then
        { w with ui := { w.ui with selected_index := sel + 1 } }
      else w
    else if ch = key '\n' ∨ ch = KEY_ENTER then
      if display_count > 0 ∧ sel ≥ 0 ∧ sel < display_count then
        let ks := show_process_popup (procs.getD sel.toNat default) inp.reply
        draw cap inp { w with kills := w.kills ++ ks }
      else w
    else if ch = key 'c' ∨ ch = key 'C' then
      { w with ui := { w.ui with sort_mode := SortMode.CPU, selected_index := 0 } }
    else if ch = key 'm' ∨ ch = key 'M' then
      { w with ui := { w.ui with sort_mode := SortMode.MEM, selected_index := 0 } }
    else if ch = key 'p' ∨ ch = key 'P' then
      { w with ui := { w.ui with sort_mode := SortMode.PID, selected_index := 0 } }
    else if ch = key '+' then
      if w.ui.refresh_interval < 30 then
        { w with ui := { w.ui with refresh_interval := w.ui.refresh_interval + 1 } }
      else w
    else if ch = key '-' then
      if w.ui.refresh_interval > 1 then
        { w with ui := { w.ui with refresh_interval := w.ui.refresh_interval - 1 } }
      else w
    else if ch = key 'k' ∨ ch = key 'K' then
      if display_count = 0 then w
      else if sel < 0 ∨ sel ≥ display_count then w
      else
        let p := procs.getD sel.toNat default
        let sig := if ch = key 'k' then SIGTERM else SIGKILL
        let c := inp.reply
        if c = key 'y' ∨ c = key 'Y' then
          { w with kills := w.kills ++ [{ pid := p.pid, sig := sig }] }
        else w
    else w

/-- Successive calls of `Ui::handle_input`, one per element of `inps`; after a throw no
further call is made. -/
def handle_inputs (cap : Nat) (inps : List Input) (w : World) : World :=
  inps.foldl (fun acc inp => if acc.thrown then acc else handle_input cap inp acc) w

/-! ## main.cpp: argument parsing and start-up -/

/-- How the argument loop of `main` ends: it runs to the end with the parsed interval and
sort flag, it returns 0 after printing the usage, or `std::stoi` throws. -/
inductive Parsed where
  | ok (default_interval : Int) (sort_flag : String)
  | help
  | threw
deriving DecidableEq, Repr

/-- The loop `for (int i = 1; i < argc; ++i)` of `main` over the remaining arguments.
The library function `std::stoi` is the parameter `stoi` (`none` when it throws). -/
def parse_args (stoi : String → Option Int) : List String → Int → String → Parsed
  | [], d, s => Parsed.ok d s
  | [a], d, s =>
    if a = "-h" ∨ a = "--help" then Parsed.help else Parsed.ok d s
  | a :: v :: rest, d, s =>
    if a = "-i" then
      match stoi v with
      | none => Parsed.threw
      | some n => parse_args stoi rest (if n < 1 then 1 else n) s
    else if a = "-s" then parse_args stoi rest d v
    else if a = "-h" ∨ a = "--help" then Parsed.help
    else parse_args stoi (v :: rest) d s

/-- The start-up sequence of `main`: parse `argv[1..]`, construct the Ui with its member
defaults, apply `set_sort_mode` and `set_refresh_interval`.  `none` when `main` leaves
before constructing the Ui. -/
def startup (stoi : String → Option Int) (args : List String) : Option Ui :=
  match parse_args stoi args 2 "cpu" with
  | Parsed.ok d s =>
    let ui : Ui := {}
    let ui :=
      if s = "cpu" then set_sort_mode ui SortMode.CPU
      else if s = "mem" then set_sort_mode ui SortMode.MEM
      else set_sort_mode ui SortMode.PID
    some (set_refresh_interval ui d)
  | _ => none

/-- A string capacity for the concrete evaluations: `2 ^ 62` characters. -/
def example_cap : Nat := 2 ^ 62

/-- A reading of `std::stoi` on the decimal strings used in the examples. -/
def stoi_example (s : String) : Option Int :=
  if s = "100" then some 100
  else if s = "0" then some 0
  else if s = "5" then some 5
  else none

end SysMon

namespace SysMon

/-! ## Sorting lemmas -/

theorem sort_insert_perm {α : Type} (comp : α → α → Bool) (x : α) (l : List α) :
    List.Perm (sort_insert comp x l) (x :: l) := by
  induction l with
  | nil => exact List.Perm.refl _
  | cons y ys ih =>
    unfold sort_insert
    split
    · exact (List.Perm.cons y ih).trans (List.Perm.swap x y ys)
    · exact List.Perm.refl _

theorem std_sort_perm {α : Type} (comp : α → α → Bool) (l : List α) :
    List.Perm (std_sort comp l) l := by
  induction l with
  | nil => exact List.Perm.refl _
  | cons x xs ih =>
    unfold std_sort
    exact (sort_insert_perm comp x _).trans (List.Perm.cons x ih)

/-- Inserting into a list ordered by a key keeps it ordered, for a comparator that is the
strict order of a linearly ordered key. -/
theorem sort_insert_pairwise {α κ : Type} [LinearOrder κ] (key : α → κ)
    (comp : α → α → Bool) (hcomp : ∀ a b, comp a b = true ↔ key a < key b)
    (x : α) (l : List α) (hl : l.Pairwise (fun a b => key a ≤ key b)) :
    (sort_insert comp x l).Pairwise (fun a b => key a ≤ key b) := by
  induction l with
  | nil => simp [sort_insert]
  | cons y ys ih =>
    unfold sort_insert
    have hy := List.pairwise_cons.mp hl
    split
    · rename_i h
      have hyx : key y < key x := (hcomp y x).mp h
      refine List.pairwise_cons.mpr ⟨?_, ih hy.2⟩
      intro b hb
      have hb2 : b ∈ x :: ys := (sort_insert_perm comp x ys).subset hb
      rcases List.mem_cons.mp hb2 with rfl | hb2
      · exact le_of_lt hyx
      · exact hy.1 b hb2
    · rename_i h
      have hxy : key x ≤ key y := by
        have : ¬ key y < key x := fun hlt => h ((hcomp y x).mpr hlt)
        exact not_lt.mp this
      refine List.pairwise_cons.mpr ⟨?_, hl⟩
      intro b hb
      rcases List.mem_cons.mp hb with rfl | hb
      · exact hxy
      · exact le_trans hxy (hy.1 b hb)

theorem std_sort_pairwise {α κ : Type} [LinearOrder κ] (key : α → κ)
    (comp : α → α → Bool) (hcomp : ∀ a b, comp a b = true ↔ key a < key b)
    (l : List α) : (std_sort comp l).Pairwise (fun a b => key a ≤ key b) := by
  induction l with
  | nil => simp [std_sort]
  | cons x xs ih =>
    unfold std_sort
    exact sort_insert_pairwise key comp hcomp x _ ih

/-! ## The sort block: order and permutation (C1) -/

theorem sort_procs_perm (mode : SortMode) (procs : List Process) :
    List.Perm (sort_procs mode procs) procs := by
  unfold sort_procs
  split
  · exact std_sort_perm _ _
  · split
    · exact std_sort_perm _ _
    · exact std_sort_perm _ _

theorem sort_procs_length (mode : SortMode) (procs : List Process) :
    (sort_procs mode procs).length = procs.length :=
  (sort_procs_perm mode procs).length_eq

theorem sort_procs_cpu_desc (procs : List Process) :
    (sort_procs SortMode.CPU procs).Pairwise (fun a b => a.cpu_percent ≥ b.cpu_percent) := by
  have h := std_sort_pairwise (fun p : Process => -p.cpu_percent) comp_cpu
    (by intro a b; simp [comp_cpu]) procs
  simp only [sort_procs, if_true]
  exact h.imp (fun hab => by simpa using hab)

theorem sort_procs_mem_desc (procs : List Process) :
    (sort_procs SortMode.MEM procs).Pairwise (fun a b => a.mem_kb ≥ b.mem_kb) := by
  have h := std_sort_pairwise (fun p : Process => -(p.mem_kb : Int)) comp_mem
    (by intro a b; simp [comp_mem]) procs
  have e : sort_procs SortMode.MEM procs = std_sort comp_mem procs := by
    simp [sort_procs]
  rw [e]
  exact h.imp (fun hab => by simpa using hab)

theorem sort_procs_pid_asc (procs : List Process)
    (hnd : (procs.map (fun p => p.pid)).Nodup) :
    (sort_procs SortMode.PID procs).Pairwise (fun a b => a.pid < b.pid) := by
  have h := std_sort_pairwise (fun p : Process => p.pid) comp_pid
    (by intro a b; simp [comp_pid]) procs
  have e : sort_procs SortMode.PID procs = std_sort comp_pid procs := by
    simp [sort_procs]
  have hp : List.Perm ((std_sort comp_pid procs).map (fun p => p.pid))
      (procs.map (fun p => p.pid)) := (std_sort_perm comp_pid procs).map _
  have hnd2 : ((std_sort comp_pid procs).map (fun p => p.pid)).Nodup :=
    hp.nodup_iff.mpr hnd
  have hne : (std_sort comp_pid procs).Pairwise (fun a b => a.pid ≠ b.pid) :=
    List.pairwise_map.mp hnd2
  rw [e]
  exact (h.and hne).imp (fun hab => lt_of_le_of_ne hab.1 hab.2)

/-- C1: the sort block of `draw_processes` and `handle_input` returns a permutation of the
process list that is non-increasing in `cpu_percent` under CPU, non-increasing in `mem_kb`
under MEM and, when the pids are pairwise distinct, strictly increasing in `pid` under
PID; on the three example processes the pid orders are `[20,30,10]`, `[30,10,20]` and
`[10,20,30]`. -/
theorem sort_procs_ordered_permutation (procs : List Process) :
    (∀ mode, List.Perm (sort_procs mode procs) procs) ∧
    (sort_procs SortMode.CPU procs).Pairwise (fun a b => a.cpu_percent ≥ b.cpu_percent) ∧
    (sort_procs SortMode.MEM procs).Pairwise (fun a b => a.mem_kb ≥ b.mem_kb) ∧
    ((procs.map (fun p => p.pid)).Nodup →
      (sort_procs SortMode.PID procs).Pairwise (fun a b => a.pid < b.pid)) ∧
    (sort_procs SortMode.CPU example_procs).map (fun p => p.pid) = [20, 30, 10] ∧
    (sort_procs SortMode.MEM example_procs).map (fun p => p.pid) = [30, 10, 20] ∧
    (sort_procs SortMode.PID example_procs).map (fun p => p.pid) = [10, 20, 30] :=
  ⟨fun mode => sort_procs_perm mode procs, sort_procs_cpu_desc procs,
    sort_procs_mem_desc procs, sort_procs_pid_asc procs, by decide, by decide, by decide⟩

/-- The example list has distinct pids and its PID order is strictly increasing. -/
theorem sort_procs_ordered_permutation_witness :
    (example_procs.map (fun p => p.pid)).Nodup ∧
    (sort_procs SortMode.PID example_procs).Pairwise (fun a b => a.pid < b.pid) :=
  ⟨by decide, (sort_procs_ordered_permutation example_procs).2.2.2.1 (by decide)⟩

/-! ## `pad_or_trim`: the padding loop and the string capacity -/

theorem pad_loop_fits (cap width : Nat) :
    ∀ (k fuel : Nat) (out : String), width - out.length = k → k ≤ fuel → width ≤ cap →
      pad_loop cap width fuel out = some (out ++ String.mk (List.replicate k ' ')) := by
  intro k
  induction k with
  | zero =>
    intro fuel out h _ _
    have e : out ++ String.mk (List.replicate 0 ' ') = out := by
      apply String.ext
      simp
    rw [e]
    cases fuel with
    | zero => rfl
    | succ f => rw [pad_loop, if_neg (by omega)]
  | succ k ih =>
    intro fuel out h hf hc
    have hl : (out ++ " ").length = out.length + 1 := by
      rw [String.length_append]; rfl
    cases fuel with
    | zero => omega
    | succ f =>
      rw [pad_loop, if_pos (by omega), if_pos (by omega),
        ih f (out ++ " ") (by omega) (by omega) hc]
      congr 1
      apply String.ext
      simp [List.replicate_succ]

theorem pad_loop_throws (cap width : Nat) :
    ∀ (k fuel : Nat) (out : String), width - out.length = k → 0 < k → k ≤ fuel →
      cap < width → pad_loop cap width fuel out = none := by
  intro k
  induction k with
  | zero => intro fuel out _ h; omega
  | succ k ih =>
    intro fuel out h _ hf hc
    have hl : (out ++ " ").length = out.length + 1 := by
      rw [String.length_append]; rfl
    cases fuel with
    | zero => omega
    | succ f =>
      rw [pad_loop, if_pos (by omega)]
      by_cases hcap : out.length < cap
      · rw [if_pos hcap]
        exact ih f (out ++ " ") (by omega) (by omega) (by omega) hc
      · rw [if_neg hcap]

/-- The padding loop with the fuel `pad_or_trim` gives it: `out` when it already fills the
width, `out` followed by the missing spaces when the width is within the capacity, and a
throw otherwise. -/
theorem pad_loop_eq (cap width : Nat) (out : String) :
    pad_loop cap width (width - out.length) out =
      if width ≤ out.length then some out
      else if width ≤ cap then
        some (out ++ String.mk (List.replicate (width - out.length) ' '))
      else none := by
  by_cases h1 : width ≤ out.length
  · rw [if_pos h1]
    have : width - out.length = 0 := by omega
    rw [this]
    rfl
  · rw [if_neg h1]
    by_cases h2 : width ≤ cap
    · rw [if_pos h2]
      exact pad_loop_fits cap width _ _ out rfl le_rfl h2
    · rw [if_neg h2]
      exact pad_loop_throws cap width _ _ out rfl (by omega) le_rfl (by omega)

/-- Within the capacity `pad_or_trim` returns a text. -/
theorem pad_or_trim_some (cap : Nat) (s : String) (width : Nat) (hw : width ≤ cap) :
    ∃ text, pad_or_trim cap s width = some text := by
  unfold pad_or_trim
  by_cases hs : s.length > width
  · rw [if_pos hs]; exact ⟨_, rfl⟩
  · rw [if_neg hs, pad_loop_eq]
    by_cases h1 : width ≤ s.length
    · rw [if_pos h1]; exact ⟨_, rfl⟩
    · rw [if_neg h1, if_pos hw]; exact ⟨_, rfl⟩

/-- A width beyond the capacity makes `pad_or_trim` throw on every name shorter than the
width. -/
theorem pad_or_trim_throws (cap : Nat) (s : String) (width : Nat)
    (hs : s.length < width) (hw : cap < width) : pad_or_trim cap s width = none := by
  unfold pad_or_trim
  rw [if_neg (by omega), pad_loop_eq, if_neg (by omega), if_neg (by omega)]

/-! ## `draw_processes`: clamping and the scrolling window (C2, C9) -/

theorem clamp_selection_range (s n : Int) (hn : 0 < n) :
    0 ≤ clamp_selection s n ∧ clamp_selection s n ≤ n - 1 := by
  simp only [clamp_selection]
  split_ifs <;> omega

theorem window_offset_bounds (sel m : Int) (hs : 0 ≤ sel) (hm : 1 ≤ m) :
    0 ≤ window_offset sel m ∧ window_offset sel m ≤ sel ∧ sel < window_offset sel m + m := by
  unfold window_offset
  split_ifs <;> omega

/-- One iteration of the drawing loop whose `pad_or_trim` returns `text`. -/
theorem draw_loop_step (cap : Nat) (procs : List Process) (sel offset m cols : Int)
    (fuel : Nat) (i : Int) (text : String)
    (hc : i < m ∧ i + offset < (procs.length : Int))
    (ht : pad_or_trim cap (procs.getD (i + offset).toNat default).name (command_width cols)
      = some text) :
    draw_loop cap procs sel offset m cols (fuel + 1) i =
      ({ row := 4 + i, idx := i + offset, is_selected := decide (i + offset = sel),
         proc := procs.getD (i + offset).toNat default, command := text } ::
          (draw_loop cap procs sel offset m cols fuel (i + 1)).1,
        (draw_loop cap procs sel offset m cols fuel (i + 1)).2) := by
  rw [draw_loop, if_pos hc]
  simp only [ht]

/-- One iteration of the drawing loop whose `pad_or_trim` throws. -/
theorem draw_loop_throw (cap : Nat) (procs : List Process) (sel offset m cols : Int)
    (fuel : Nat) (i : Int)
    (hc : i < m ∧ i + offset < (procs.length : Int))
    (ht : pad_or_trim cap (procs.getD (i + offset).toNat default).name (command_width cols)
      = none) :
    draw_loop cap procs sel offset m cols (fuel + 1) i = ([], true) := by
  rw [draw_loop, if_pos hc]
  simp only [ht]

/-- With a column budget within the capacity, iteration `j` of the drawing loop paints its
row: index `j + offset`, screen row `4 + j`, highlighted exactly when it is the selected
one, with the process read at that index and its name passed through `pad_or_trim`. -/
theorem draw_loop_mem (cap : Nat) (procs : List Process) (sel offset m cols : Int)
    (hfit : command_width cols ≤ cap) :
    ∀ (fuel : Nat) (i j : Int), i ≤ j → j < i + fuel → j < m →
      j + offset < (procs.length : Int) →
      ∃ d ∈ (draw_loop cap procs sel offset m cols fuel i).1,
        d.idx = j + offset ∧ d.row = 4 + j ∧ d.is_selected = decide (j + offset = sel) ∧
        d.proc = procs.getD (j + offset).toNat default ∧
        pad_or_trim cap d.proc.name (command_width cols) = some d.command := by
  intro fuel
  induction fuel with
  | zero => intro i j h1 h2; omega
  | succ k ih =>
    intro i j h1 h2 h3 h4
    have hc : i < m ∧ i + offset < (procs.length : Int) := ⟨by omega, by omega⟩
    obtain ⟨text, ht⟩ := pad_or_trim_some cap
      (procs.getD (i + offset).toNat default).name (command_width cols) hfit
    rw [draw_loop_step cap procs sel offset m cols k i text hc ht]
    by_cases hij : i = j
    · subst hij
      exact ⟨_, List.mem_cons_self _ _, rfl, rfl, rfl, rfl, ht⟩
    · obtain ⟨d, hd, hd2⟩ := ih (i + 1) j (by omega) (by push_cast at h2 ⊢; omega) h3 h4
      exact ⟨d, List.mem_cons_of_mem _ hd, hd2⟩

/-- With a column budget within the capacity the drawing loop does not throw. -/
theorem draw_loop_completes (cap : Nat) (procs : List Process) (sel offset m cols : Int)
    (hfit : command_width cols ≤ cap) :
    ∀ (fuel : Nat) (i : Int), (draw_loop cap procs sel offset m cols fuel i).2 = false := by
  intro fuel
  induction fuel with
  | zero => intro i; rfl
  | succ k ih =>
    intro i
    by_cases hc : i < m ∧ i + offset < (procs.length : Int)
    · obtain ⟨text, ht⟩ := pad_or_trim_some cap
        (procs.getD (i + offset).toNat default).name (command_width cols) hfit
      rw [draw_loop_step cap procs sel offset m cols k i text hc ht]
      exact ih (i + 1)
    · rw [draw_loop, if_neg hc]

/-- Every painted row lies inside the window. -/
theorem draw_loop_rows (cap : Nat) (procs : List Process) (sel offset m cols : Int) :
    ∀ (fuel : Nat) (i : Int), ∀ d ∈ (draw_loop cap procs sel offset m cols fuel i).1,
      i + offset ≤ d.idx ∧ d.idx < offset + m ∧ d.idx < (procs.length : Int) ∧
      d.row = 4 + (d.idx - offset) := by
  intro fuel
  induction fuel with
  | zero => intro i d hd; simp [draw_loop] at hd
  | succ k ih =>
    intro i d hd
    by_cases hc : i < m ∧ i + offset < (procs.length : Int)
    · cases ht : pad_or_trim cap (procs.getD (i + offset).toNat default).name
          (command_width cols) with
      | none =>
        rw [draw_loop_throw cap procs sel offset m cols k i hc ht] at hd
        simp at hd
      | some text =>
        rw [draw_loop_step cap procs sel offset m cols k i text hc ht] at hd
        rcases List.mem_cons.mp hd with rfl | hd
        · simp only
          omega
        · have := ih (i + 1) d hd
          omega
    · rw [draw_loop, if_neg hc] at hd
      simp at hd

/-- The drawing loop stops by its own condition or by a throw: fuel beyond
`max_display - i` is never used. -/
theorem draw_loop_fuel (cap : Nat) (procs : List Process) (sel offset m cols : Int) :
    ∀ (fuel extra : Nat) (i : Int), (m - i).toNat ≤ fuel →
      draw_loop cap procs sel offset m cols (fuel + extra) i =
        draw_loop cap procs sel offset m cols fuel i := by
  intro fuel
  induction fuel with
  | zero =>
    intro extra i h
    have hi : ¬ (i < m ∧ i + offset < (procs.length : Int)) := by omega
    cases extra with
    | zero => rfl
    | succ e => simp [draw_loop, hi]
  | succ k ih =>
    intro extra i h
    have e : k + 1 + extra = (k + extra) + 1 := by omega
    rw [e]
    by_cases hc : i < m ∧ i + offset < (procs.length : Int)
    · cases ht : pad_or_trim cap (procs.getD (i + offset).toNat default).name
          (command_width cols) with
      | none =>
        rw [draw_loop_throw cap procs sel offset m cols _ i hc ht,
          draw_loop_throw cap procs sel offset m cols _ i hc ht]
      | some text =>
        rw [draw_loop_step cap procs sel offset m cols _ i text hc ht,
          draw_loop_step cap procs sel offset m cols _ i text hc ht,
          ih extra (i + 1) (by omega)]
    · rw [draw_loop, draw_loop, if_neg hc, if_neg hc]

theorem draw_processes_small (cap : Nat) (procs : List Process) (rows cols : Int) (u : Ui)
    (h : rows - 6 < 1) : draw_processes cap procs rows cols u = (u, [], false) := by
  simp [draw_processes, h]

theorem draw_processes_large (cap : Nat) (procs : List Process) (rows cols : Int) (u : Ui)
    (h : 1 ≤ rows - 6) :
    draw_processes cap procs rows cols u =
      ({ u with selected_index := clamp_selection u.selected_index (procs.length : Int) },
        draw_loop cap (sort_procs u.sort_mode procs)
          (clamp_selection u.selected_index (procs.length : Int))
          (window_offset (clamp_selection u.selected_index (procs.length : Int)) (rows - 6))
          (rows - 6) cols (rows - 6).toNat 0) := by
  have h2 : ¬ (rows - 6 < 1) := by omega
  simp [draw_processes, h2, sort_procs_length]

/-- The render leaves every Ui member except `selected_index` alone. -/
theorem draw_processes_frame (cap : Nat) (procs : List Process) (rows cols : Int) (u : Ui) :
    (draw_processes cap procs rows cols u).1.sort_mode = u.sort_mode ∧
    (draw_processes cap procs rows cols u).1.refresh_interval = u.refresh_interval ∧
    (draw_processes cap procs rows cols u).1.running = u.running := by
  by_cases h : rows - 6 < 1
  · rw [draw_processes_small cap procs rows cols u h]; exact ⟨rfl, rfl, rfl⟩
  · rw [draw_processes_large cap procs rows cols u (by omega)]; exact ⟨rfl, rfl, rfl⟩

/-- C2 (as stated) fails: in a viewport without data rows (`rows = 6`) the render returns
before the clamp and an out-of-range `selected_index` of 7 over three processes stays 7;
and on an empty process list in a 24-row viewport the clamp leaves -1, not 0. -/
theorem draw_processes_selection_not_always_clamped :
    ¬ ((0 : Int) ≤ (draw_processes example_cap example_procs 6 80
          { selected_index := 7 }).1.selected_index ∧
        (draw_processes example_cap example_procs 6 80
          { selected_index := 7 }).1.selected_index ≤ (example_procs.length : Int) - 1) ∧
    (draw_processes example_cap [] 24 80 { selected_index := 0 }).1.selected_index ≠ 0 := by
  decide

/-- C2 (amended): after a render in a viewport with at least one data row
(`rows - 6 >= 1`) over a non-empty process list, `selected_index` lies in `[0, n-1]`
whatever it was before; in a viewport with `rows - 6 < 1` the render returns before the
clamp and `selected_index` keeps its prior value. -/
theorem draw_processes_selection_clamped (cap : Nat) (procs : List Process)
    (rows cols : Int) (u : Ui) :
    (1 ≤ rows - 6 → 0 < procs.length →
      0 ≤ (draw_processes cap procs rows cols u).1.selected_index ∧
      (draw_processes cap procs rows cols u).1.selected_index ≤ (procs.length : Int) - 1) ∧
    (rows - 6 < 1 →
      (draw_processes cap procs rows cols u).1.selected_index = u.selected_index) := by
  constructor
  · intro h hn
    rw [draw_processes_large cap procs rows cols u h]
    exact clamp_selection_range _ _ (by exact_mod_cast hn)
  · intro h
    rw [draw_processes_small cap procs rows cols u h]

/-- In a 24-row viewport the selection 7 over the three example processes is clamped to
2; in a 6-row viewport it stays 7. -/
theorem draw_processes_selection_clamped_witness :
    ((1 : Int) ≤ 24 - 6 ∧ 0 < example_procs.length ∧
      (0 ≤ (draw_processes example_cap example_procs 24 80
              { selected_index := 7 }).1.selected_index ∧
      (draw_processes example_cap example_procs 24 80
              { selected_index := 7 }).1.selected_index ≤ (example_procs.length : Int) - 1)) ∧
    ((6 : Int) - 6 < 1 ∧
      (draw_processes example_cap example_procs 6 80
        { selected_index := 7 }).1.selected_index = 7) :=
  ⟨⟨by decide, by decide,
    (draw_processes_selection_clamped example_cap example_procs 24 80
      { selected_index := 7 }).1 (by decide) (by decide)⟩,
   ⟨by decide,
    (draw_processes_selection_clamped example_cap example_procs 6 80
      { selected_index := 7 }).2 (by decide)⟩⟩

/-- In a terminal of fewer than 50 columns the column budget wraps to at least
`2 ^ 64 - 50`. -/
theorem command_width_narrow (cols : Int) (h0 : 0 ≤ cols) (h50 : cols < 50) :
    2 ^ 64 - 50 ≤ command_width cols := by
  unfold command_width
  omega

/-- In a terminal of at least 50 columns the column budget is `cols - 50`. -/
theorem command_width_wide (cols : Int) (h50 : 50 ≤ cols) (hmax : cols < 2 ^ 31) :
    (command_width cols : Int) = cols - 50 := by
  unfold command_width
  omega

/-- With at least one data row, a non-empty process list and a column budget within the
string capacity, the window that `draw_processes` paints contains the selected row: with
`offset` the window start computed from the clamped `selected_index`,
`offset <= selected_index < offset + (rows - 6)`; the render completes; a painted row
carries index `selected_index`, is the highlighted one, sits on screen row
`4 + (selected_index - offset)` and shows the process at that index of the sorted list
with its name passed through `pad_or_trim`; every painted row lies in the window; and
`offset = selected_index - (rows - 6) + 1` whenever `selected_index >= rows - 6`. -/
theorem draw_processes_window_contains_selection (cap : Nat) (procs : List Process)
    (rows cols : Int) (u : Ui) (hrows : 1 ≤ rows - 6) (hne : procs ≠ [])
    (hfit : command_width cols ≤ cap) :
    let r := draw_processes cap procs rows cols u
    let sel := r.1.selected_index
    let offset := window_offset sel (rows - 6)
    (offset ≤ sel ∧ sel < offset + (rows - 6)) ∧
    r.2.2 = false ∧
    (∃ d ∈ r.2.1, d.idx = sel ∧ d.is_selected = true ∧ d.row = 4 + (sel - offset) ∧
      d.proc = (sort_procs u.sort_mode procs).getD sel.toNat default ∧
      pad_or_trim cap d.proc.name (command_width cols) = some d.command) ∧
    (∀ d ∈ r.2.1, offset ≤ d.idx ∧ d.idx < offset + (rows - 6) ∧
      d.idx < (procs.length : Int) ∧ d.row = 4 + (d.idx - offset)) ∧
    (sel ≥ rows - 6 → offset = sel - (rows - 6) + 1) ∧
    (sel < rows - 6 → offset = 0) := by
  have hn : (0 : Int) < (procs.length : Int) := by
    have : 0 < procs.length := List.length_pos.mpr hne
    exact_mod_cast this
  have hc := clamp_selection_range u.selected_index (procs.length : Int) hn
  have hw := window_offset_bounds (clamp_selection u.selected_index (procs.length : Int))
    (rows - 6) hc.1 hrows
  rw [draw_processes_large cap procs rows cols u hrows]
  simp only
  refine ⟨⟨hw.2.1, hw.2.2⟩, draw_loop_completes cap _ _ _ _ _ hfit _ _, ?_, ?_, ?_, ?_⟩
  · obtain ⟨d, hd, h1, h2, h3, h4, h5⟩ := draw_loop_mem cap (sort_procs u.sort_mode procs)
      (clamp_selection u.selected_index (procs.length : Int))
      (window_offset (clamp_selection u.selected_index (procs.length : Int)) (rows - 6))
      (rows - 6) cols hfit (rows - 6).toNat 0
      (clamp_selection u.selected_index (procs.length : Int) -
        window_offset (clamp_selection u.selected_index (procs.length : Int)) (rows - 6))
      (by omega) (by rw [Int.toNat_of_nonneg (by omega)]; omega) (by omega)
      (by rw [sort_procs_length]; omega)
    have hidx : clamp_selection u.selected_index (procs.length : Int) -
        window_offset (clamp_selection u.selected_index (procs.length : Int)) (rows - 6) +
        window_offset (clamp_selection u.selected_index (procs.length : Int)) (rows - 6)
        = clamp_selection u.selected_index (procs.length : Int) := by omega
    rw [hidx] at h1 h3 h4
    refine ⟨d, hd, h1, ?_, by rw [h2], h4, h5⟩
    rw [h3]
    simp
  · intro d hd
    have := draw_loop_rows _ _ _ _ _ _ _ _ d hd
    rw [sort_procs_length] at this
    omega
  · intro h
    simp only [window_offset]
    rw [if_pos h]
  · intro h
    simp only [window_offset]
    rw [if_neg (by omega)]

/-- With eight rows (two data rows) of 80 columns and the last of three processes
selected, the window starts at 1 and paints the rows of indices 1 and 2, the second
highlighted. -/
theorem draw_processes_window_contains_selection_example :
    ((1 : Int) ≤ 8 - 6 ∧ example_procs ≠ [] ∧ command_width 80 ≤ example_cap) ∧
    (∃ d ∈ (draw_processes example_cap example_procs 8 80 { selected_index := 7 }).2.1,
      d.idx = 2 ∧ d.is_selected = true ∧ d.row = 5) ∧
    ((draw_processes example_cap example_procs 8 80 { selected_index := 7 }).2.1.map
        (fun d => d.idx) = [1, 2]) :=
  ⟨⟨by decide, by decide, by decide⟩,
   ((draw_processes_window_contains_selection example_cap example_procs 8 80
      { selected_index := 7 } (by decide) (by decide) (by decide)).2.2.1).imp
      (fun _ h => ⟨h.1, h.2.1, h.2.2.1, h.2.2.2.1⟩),
   by decide⟩

/-- C9 (the code in a narrow terminal): with at least one data row, a non-empty process
list whose names fit the string capacity, fewer than 50 columns and a capacity below
`2 ^ 64 - 50`, the column budget `(size_t)cols - 50` wraps beyond the capacity, the
padding loop of `pad_or_trim` throws on the first row, and `draw_processes` is left by
that throw with no row painted: the selected row is not among the rows drawn. -/
theorem draw_processes_narrow_terminal_throws (cap : Nat) (procs : List Process)
    (rows cols : Int) (u : Ui) (hrows : 1 ≤ rows - 6) (hne : procs ≠ [])
    (hnames : ∀ p ∈ procs, p.name.length ≤ cap)
    (h0 : 0 ≤ cols) (h50 : cols < 50) (hcap : cap < 2 ^ 64 - 50) :
    (draw_processes cap procs rows cols u).2 = ([], true) ∧
    ¬ ∃ d ∈ (draw_processes cap procs rows cols u).2.1,
        d.idx = (draw_processes cap procs rows cols u).1.selected_index := by
  have hn : (0 : Int) < (procs.length : Int) := by
    have : 0 < procs.length := List.length_pos.mpr hne
    exact_mod_cast this
  have hc := clamp_selection_range u.selected_index (procs.length : Int) hn
  have hw := window_offset_bounds (clamp_selection u.selected_index (procs.length : Int))
    (rows - 6) hc.1 hrows
  have hwidth := command_width_narrow cols h0 h50
  have hlen := sort_procs_length u.sort_mode procs
  obtain ⟨k, hk⟩ : ∃ k, (rows - 6).toNat = k + 1 := ⟨(rows - 6).toNat - 1, by omega⟩
  have hidx : (0 + window_offset (clamp_selection u.selected_index (procs.length : Int))
      (rows - 6)).toNat < (sort_procs u.sort_mode procs).length := by
    rw [hlen]; omega
  have hmem : (sort_procs u.sort_mode procs).getD
      (0 + window_offset (clamp_selection u.selected_index (procs.length : Int))
        (rows - 6)).toNat default ∈ procs := by
    rw [List.getD_eq_getElem _ _ hidx]
    exact (sort_procs_perm u.sort_mode procs).subset (List.getElem_mem _)
  have hthrow := pad_or_trim_throws cap
    ((sort_procs u.sort_mode procs).getD
      (0 + window_offset (clamp_selection u.selected_index (procs.length : Int))
        (rows - 6)).toNat default).name (command_width cols)
    (by have := hnames _ hmem; omega) (by omega)
  have e : (draw_processes cap procs rows cols u).2 = ([], true) := by
    rw [draw_processes_large cap procs rows cols u hrows, hk]
    exact draw_loop_throw cap _ _ _ _ _ k 0 ⟨by omega, by rw [hlen]; omega⟩ hthrow
  refine ⟨e, ?_⟩
  rw [e]
  rintro ⟨d, hd, _⟩
  simp at hd

/-- In a terminal of 24 rows and 40 columns, with the single process `launchd` and a
capacity of `2 ^ 62` characters, the column budget is `2 ^ 64 - 10` and the render is
left by the throw with no row painted. -/
theorem draw_processes_narrow_terminal_throws_witness :
    ((1 : Int) ≤ 24 - 6 ∧ [({ pid := 1, name := "launchd" } : Process)] ≠ [] ∧
      (∀ p ∈ [({ pid := 1, name := "launchd" } : Process)], p.name.length ≤ example_cap) ∧
      (0 : Int) ≤ 40 ∧ (40 : Int) < 50 ∧ example_cap < 2 ^ 64 - 50) ∧
    command_width 40 = 2 ^ 64 - 10 ∧
    (draw_processes example_cap [{ pid := 1, name := "launchd" }] 24 40 {}).2
      = ([], true) :=
  ⟨⟨by decide, by decide, by decide, by decide, by decide, by decide⟩, by decide,
   (draw_processes_narrow_terminal_throws example_cap [{ pid := 1, name := "launchd" }]
      24 40 {} (by decide) (by decide) (by decide) (by decide) (by decide) (by decide)).1⟩

/-! ## `handle_input`: refresh interval, sort keys, signals (C3, C7, C8) -/

/-- A repaint leaves `refresh_interval` alone. -/
theorem draw_refresh_interval (cap : Nat) (inp : Input) (w : World) :
    (draw cap inp w).ui.refresh_interval = w.ui.refresh_interval := by
  simp only [draw]
  exact (draw_processes_frame cap inp.procs inp.rows inp.cols w.ui).2.1

/-- A property of both branches of a conditional holds of the conditional. -/
theorem ite_ind {α : Type} (P : α → Prop) (c : Prop) [Decidable c] (a b : α)
    (ha : c → P a) (hb : ¬ c → P b) : P (if c then a else b) := by
  by_cases h : c
  · rw [if_pos h]; exact ha h
  · rw [if_neg h]; exact hb h

/-- Case analysis of one call of `handle_input`: the result is the world unchanged, the
world with a Ui of the same `refresh_interval`, a repaint after a popup, the interval
stepped by `+` below 30 or by `-` above 1, or the world with one more `kill` call. -/
theorem handle_input_cases (cap : Nat) (P : World → Prop) (inp : Input) (w : World)
    (h0 : P w)
    (hui : ∀ u : Ui, u.refresh_interval = w.ui.refresh_interval → P { w with ui := u })
    (hdraw : ∀ ks, P (draw cap inp { w with kills := w.kills ++ ks }))
    (hplus : w.ui.refresh_interval < 30 →
      P { w with ui := { w.ui with refresh_interval := w.ui.refresh_interval + 1 } })
    (hminus : w.ui.refresh_interval > 1 →
      P { w with ui := { w.ui with refresh_interval := w.ui.refresh_interval - 1 } })
    (hkill : ∀ k, P { w with kills := w.kills ++ [k] }) :
    P (handle_input cap inp w) := by
  unfold handle_input
  dsimp only
  refine ite_ind P _ _ _ (fun _ => h0) (fun _ => ?_)
  refine ite_ind P _ _ _ (fun _ => hui _ rfl) (fun _ => ?_)
  refine ite_ind P _ _ _ (fun _ => ite_ind P _ _ _ (fun _ => hui _ rfl) (fun _ => h0))
    (fun _ => ?_)
  refine ite_ind P _ _ _ (fun _ => ite_ind P _ _ _ (fun _ => hui _ rfl) (fun _ => h0))
    (fun _ => ?_)
  refine ite_ind P _ _ _ (fun _ => ite_ind P _ _ _ (fun _ => hdraw _) (fun _ => h0))
    (fun _ => ?_)
  refine ite_ind P _ _ _ (fun _ => hui _ rfl) (fun _ => ?_)
  refine ite_ind P _ _ _ (fun _ => hui _ rfl) (fun _ => ?_)
  refine ite_ind P _ _ _ (fun _ => hui _ rfl) (fun _ => ?_)
  refine ite_ind P _ _ _ (fun _ => ite_ind P _ _ _ (fun h => hplus h) (fun _ => h0))
    (fun _ => ?_)
  refine ite_ind P _ _ _ (fun _ => ite_ind P _ _ _ (fun h => hminus h) (fun _ => h0))
    (fun _ => ?_)
  refine ite_ind P _ _ _ (fun _ => ?_) (fun _ => h0)
  refine ite_ind P _ _ _ (fun _ => h0) (fun _ => ?_)
  refine ite_ind P _ _ _ (fun _ => h0) (fun _ => ?_)
  exact ite_ind P _ _ _ (fun _ => hkill _) (fun _ => h0)

/-- One call of `handle_input` keeps `refresh_interval` inside `[1, 30]`. -/
theorem handle_input_refresh_interval (cap : Nat) (inp : Input) (w : World)
    (h1 : 1 ≤ w.ui.refresh_interval) (h2 : w.ui.refresh_interval ≤ 30) :
    1 ≤ (handle_input cap inp w).ui.refresh_interval ∧
    (handle_input cap inp w).ui.refresh_interval ≤ 30 := by
  refine handle_input_cases cap
    (fun x => 1 ≤ x.ui.refresh_interval ∧ x.ui.refresh_interval ≤ 30) inp w
    ⟨h1, h2⟩ ?_ ?_ ?_ ?_ ?_
  · intro u hu; dsimp only; omega
  · intro ks; rw [draw_refresh_interval]; exact ⟨h1, h2⟩
  · intro h; dsimp only; omega
  · intro h; dsimp only; omega
  · intro k; exact ⟨h1, h2⟩

/-- The first of successive calls: none after a throw. -/
theorem handle_inputs_cons (cap : Nat) (inp : Input) (rest : List Input) (w : World) :
    handle_inputs cap (inp :: rest) w =
      handle_inputs cap rest (if w.thrown then w else handle_input cap inp w) := rfl

theorem handle_inputs_refresh_interval (cap : Nat) (inps : List Input) :
    ∀ w : World, 1 ≤ w.ui.refresh_interval → w.ui.refresh_interval ≤ 30 →
      1 ≤ (handle_inputs cap inps w).ui.refresh_interval ∧
      (handle_inputs cap inps w).ui.refresh_interval ≤ 30 := by
  induction inps with
  | nil => intro w h1 h2; exact ⟨h1, h2⟩
  | cons inp rest ih =>
    intro w h1 h2
    rw [handle_inputs_cons]
    by_cases ht : w.thrown = true
    · rw [if_pos ht]; exact ih w h1 h2
    · rw [if_neg ht]
      have h := handle_input_refresh_interval cap inp w h1 h2
      exact ih (handle_input cap inp w) h.1 h.2

/-- The `+` case of `handle_input`. -/
theorem handle_input_plus_key (cap : Nat) (inp : Input) (w : World)
    (hc : inp.ch = key '+') :
    handle_input cap inp w =
      if w.ui.refresh_interval < 30 then
        { w with ui := { w.ui with refresh_interval := w.ui.refresh_interval + 1 } }
      else w := by
  have n1 : ¬ inp.ch = ERR := by rw [hc]; decide
  have n2 : ¬ (inp.ch = key 'q' ∨ inp.ch = key 'Q') := by rw [hc]; decide
  have n3 : ¬ inp.ch = KEY_UP := by rw [hc]; decide
  have n4 : ¬ inp.ch = KEY_DOWN := by rw [hc]; decide
  have n5 : ¬ (inp.ch = key '\n' ∨ inp.ch = KEY_ENTER) := by rw [hc]; decide
  have n6 : ¬ (inp.ch = key 'c' ∨ inp.ch = key 'C') := by rw [hc]; decide
  have n7 : ¬ (inp.ch = key 'm' ∨ inp.ch = key 'M') := by rw [hc]; decide
  have n8 : ¬ (inp.ch = key 'p' ∨ inp.ch = key 'P') := by rw [hc]; decide
  unfold handle_input
  dsimp only
  rw [if_neg n1, if_neg n2, if_neg n3, if_neg n4, if_neg n5, if_neg n6, if_neg n7,
    if_neg n8, if_pos hc]

/-- From an interval of at most 30, `k` presses of `+` give `min (interval + k) 30`. -/
theorem plus_presses (cap : Nat) (inp : Input) (hc : inp.ch = key '+') :
    ∀ (k : Nat) (w : World), w.thrown = false → w.ui.refresh_interval ≤ 30 →
      (handle_inputs cap (List.replicate k inp) w).ui.refresh_interval
        = min (w.ui.refresh_interval + k) 30 := by
  intro k
  induction k with
  | zero =>
    intro w _ h
    show w.ui.refresh_interval = min (w.ui.refresh_interval + ((0 : Nat) : Int)) 30
    rw [min_def]
    split_ifs <;> omega
  | succ k ih =>
    intro w ht h
    rw [List.replicate_succ, handle_inputs_cons, ht, if_neg (by decide),
      handle_input_plus_key cap inp w hc]
    by_cases h30 : w.ui.refresh_interval < 30
    · have hi := ih
        { w with ui := { w.ui with refresh_interval := w.ui.refresh_interval + 1 } }
        ht (show w.ui.refresh_interval + 1 ≤ 30 by omega)
      rw [if_pos h30, hi]
      show min (w.ui.refresh_interval + 1 + (k : Int)) 30
        = min (w.ui.refresh_interval + ((k + 1 : Nat) : Int)) 30
      rw [min_def, min_def]
      push_cast
      split_ifs <;> omega
    · rw [if_neg h30, ih w ht h, min_def, min_def]
      push_cast
      split_ifs <;> omega

theorem handle_input_cpu_key (cap : Nat) (inp : Input) (w : World)
    (hc : inp.ch = key 'c' ∨ inp.ch = key 'C') :
    handle_input cap inp w =
      { w with ui := { w.ui with sort_mode := SortMode.CPU, selected_index := 0 } } := by
  have n1 : ¬ inp.ch = ERR := by rcases hc with h | h <;> rw [h] <;> decide
  have n2 : ¬ (inp.ch = key 'q' ∨ inp.ch = key 'Q') := by
    rcases hc with h | h <;> rw [h] <;> decide
  have n3 : ¬ inp.ch = KEY_UP := by rcases hc with h | h <;> rw [h] <;> decide
  have n4 : ¬ inp.ch = KEY_DOWN := by rcases hc with h | h <;> rw [h] <;> decide
  have n5 : ¬ (inp.ch = key '\n' ∨ inp.ch = KEY_ENTER) := by
    rcases hc with h | h <;> rw [h] <;> decide
  unfold handle_input
  dsimp only
  rw [if_neg n1, if_neg n2, if_neg n3, if_neg n4, if_neg n5, if_pos hc]

theorem handle_input_mem_key (cap : Nat) (inp : Input) (w : World)
    (hc : inp.ch = key 'm' ∨ inp.ch = key 'M') :
    handle_input cap inp w =
      { w with ui := { w.ui with sort_mode := SortMode.MEM, selected_index := 0 } } := by
  have n1 : ¬ inp.ch = ERR := by rcases hc with h | h <;> rw [h] <;> decide
  have n2 : ¬ (inp.ch = key 'q' ∨ inp.ch = key 'Q') := by
    rcases hc with h | h <;> rw [h] <;> decide
  have n3 : ¬ inp.ch = KEY_UP := by rcases hc with h | h <;> rw [h] <;> decide
  have n4 : ¬ inp.ch = KEY_DOWN := by rcases hc with h | h <;> rw [h] <;> decide
  have n5 : ¬ (inp.ch = key '\n' ∨ inp.ch = KEY_ENTER) := by
    rcases hc with h | h <;> rw [h] <;> decide
  have n6 : ¬ (inp.ch = key 'c' ∨ inp.ch = key 'C') := by
    rcases hc with h | h <;> rw [h] <;> decide
  unfold handle_input
  dsimp only
  rw [if_neg n1, if_neg n2, if_neg n3, if_neg n4, if_neg n5, if_neg n6, if_pos hc]

theorem handle_input_pid_key (cap : Nat) (inp : Input) (w : World)
    (hc : inp.ch = key 'p' ∨ inp.ch = key 'P') :
    handle_input cap inp w =
      { w with ui := { w.ui with sort_mode := SortMode.PID, selected_index := 0 } } := by
  have n1 : ¬ inp.ch = ERR := by rcases hc with h | h <;> rw [h] <;> decide
  have n2 : ¬ (inp.ch = key 'q' ∨ inp.ch = key 'Q') := by
    rcases hc with h | h <;> rw [h] <;> decide
  have n3 : ¬ inp.ch = KEY_UP := by rcases hc with h | h <;> rw [h] <;> decide
  have n4 : ¬ inp.ch = KEY_DOWN := by rcases hc with h | h <;> rw [h] <;> decide
  have n5 : ¬ (inp.ch = key '\n' ∨ inp.ch = KEY_ENTER) := by
    rcases hc with h | h <;> rw [h] <;> decide
  have n6 : ¬ (inp.ch = key 'c' ∨ inp.ch = key 'C') := by
    rcases hc with h | h <;> rw [h] <;> decide
  have n7 : ¬ (inp.ch = key 'm' ∨ inp.ch = key 'M') := by
    rcases hc with h | h <;> rw [h] <;> decide
  unfold handle_input
  dsimp only
  rw [if_neg n1, if_neg n2, if_neg n3, if_neg n4, if_neg n5, if_neg n6, if_neg n7,
    if_pos hc]

/-- The `k`/`K` case of `handle_input` with the selection in range. -/
theorem handle_input_kill_key (cap : Nat) (inp : Input) (w : World)
    (hc : inp.ch = key 'k' ∨ inp.ch = key 'K')
    (hlo : 0 ≤ w.ui.selected_index)
    (hhi : w.ui.selected_index < (inp.procs.length : Int)) :
    handle_input cap inp w =
      if inp.reply = key 'y' ∨ inp.reply = key 'Y' then
        { w with kills := w.kills ++
            [{ pid := ((sort_procs w.ui.sort_mode inp.procs).getD
                        w.ui.selected_index.toNat default).pid
               sig := if inp.ch = key 'k' then SIGTERM else SIGKILL }] }
      else w := by
  have n1 : ¬ inp.ch = ERR := by rcases hc with h | h <;> rw [h] <;> decide
  have n2 : ¬ (inp.ch = key 'q' ∨ inp.ch = key 'Q') := by
    rcases hc with h | h <;> rw [h] <;> decide
  have n3 : ¬ inp.ch = KEY_UP := by rcases hc with h | h <;> rw [h] <;> decide
  have n4 : ¬ inp.ch = KEY_DOWN := by rcases hc with h | h <;> rw [h] <;> decide
  have n5 : ¬ (inp.ch = key '\n' ∨ inp.ch = KEY_ENTER) := by
    rcases hc with h | h <;> rw [h] <;> decide
  have n6 : ¬ (inp.ch = key 'c' ∨ inp.ch = key 'C') := by
    rcases hc with h | h <;> rw [h] <;> decide
  have n7 : ¬ (inp.ch = key 'm' ∨ inp.ch = key 'M') := by
    rcases hc with h | h <;> rw [h] <;> decide
  have n8 : ¬ (inp.ch = key 'p' ∨ inp.ch = key 'P') := by
    rcases hc with h | h <;> rw [h] <;> decide
  have n9 : ¬ inp.ch = key '+' := by rcases hc with h | h <;> rw [h] <;> decide
  have n10 : ¬ inp.ch = key '-' := by rcases hc with h | h <;> rw [h] <;> decide
  have n11 : ¬ ((sort_procs w.ui.sort_mode inp.procs).length : Int) = 0 := by
    rw [sort_procs_length]; omega
  have n12 : ¬ (w.ui.selected_index < 0 ∨
      w.ui.selected_index ≥ ((sort_procs w.ui.sort_mode inp.procs).length : Int)) := by
    rw [sort_procs_length]; omega
  unfold handle_input
  dsimp only
  rw [if_neg n1, if_neg n2, if_neg n3, if_neg n4, if_neg n5, if_neg n6, if_neg n7,
    if_neg n8, if_neg n9, if_neg n10, if_pos hc, if_neg n11, if_neg n12]

/-- C3: from a UI state whose `refresh_interval` is in `[1, 30]`, every finite sequence of
calls of `handle_input` (any keys, any process lists, replies and viewports) leaves
`refresh_interval` in `[1, 30]`; from the start-up value 2, fifteen `+` presses give 17
and thirty give 30. -/
theorem handle_inputs_refresh_interval_bounded (cap : Nat) :
    (∀ (inps : List Input) (w : World),
      1 ≤ w.ui.refresh_interval → w.ui.refresh_interval ≤ 30 →
      1 ≤ (handle_inputs cap inps w).ui.refresh_interval ∧
      (handle_inputs cap inps w).ui.refresh_interval ≤ 30) ∧
    (handle_inputs cap (List.replicate 15 { ch := key '+' }) {}).ui.refresh_interval = 17 ∧
    (handle_inputs cap (List.replicate 30 { ch := key '+' }) {}).ui.refresh_interval = 30 := by
  refine ⟨handle_inputs_refresh_interval cap, ?_, ?_⟩
  · rw [plus_presses cap { ch := key '+' } rfl 15 {} rfl (by decide)]
    decide
  · rw [plus_presses cap { ch := key '+' } rfl 30 {} rfl (by decide)]
    decide

/-- From `refresh_interval = 30`, a `+`, an Enter on the example list, a `-` and an
unbound key leave the interval inside `[1, 30]`. -/
theorem handle_inputs_refresh_interval_bounded_witness :
    ((1 : Int) ≤ 30 ∧ (30 : Int) ≤ 30) ∧
    1 ≤ (handle_inputs example_cap
          [{ ch := key '+' }, { ch := key '\n', procs := example_procs, reply := key 'x' },
           { ch := key '-' }, { ch := key 'z' }]
          { ui := { refresh_interval := 30 } }).ui.refresh_interval ∧
    (handle_inputs example_cap
          [{ ch := key '+' }, { ch := key '\n', procs := example_procs, reply := key 'x' },
           { ch := key '-' }, { ch := key 'z' }]
          { ui := { refresh_interval := 30 } }).ui.refresh_interval ≤ 30 :=
  ⟨⟨by decide, by decide⟩,
   (handle_inputs_refresh_interval_bounded example_cap).1 _
     { ui := { refresh_interval := 30 } } (by decide) (by decide)⟩

/-- C7: with `selected_index` in range, handling `k` or `K` and then reading the
confirmation key `c` makes exactly one `kill` call if `c` is `y` or `Y` and none for every
other `c`; the call goes to the pid of the process at `selected_index` in the sorted view
of the moment of the keypress, with SIGTERM for `k` and SIGKILL for `K`; in both cases the
Ui members (`sort_mode`, `selected_index`, `refresh_interval`, `running`) are unchanged. -/
theorem handle_input_kill_confirmation (cap : Nat) (inp : Input) (w : World)
    (hc : inp.ch = key 'k' ∨ inp.ch = key 'K')
    (hlo : 0 ≤ w.ui.selected_index)
    (hhi : w.ui.selected_index < (inp.procs.length : Int)) :
    ∃ p, (sort_procs w.ui.sort_mode inp.procs)[w.ui.selected_index.toNat]? = some p ∧
      (handle_input cap inp w).ui = w.ui ∧
      (inp.ch = key 'k' → (inp.reply = key 'y' ∨ inp.reply = key 'Y') →
        (handle_input cap inp w).kills = w.kills ++ [{ pid := p.pid, sig := SIGTERM }]) ∧
      (inp.ch = key 'K' → (inp.reply = key 'y' ∨ inp.reply = key 'Y') →
        (handle_input cap inp w).kills = w.kills ++ [{ pid := p.pid, sig := SIGKILL }]) ∧
      (¬ (inp.reply = key 'y' ∨ inp.reply = key 'Y') →
        (handle_input cap inp w).kills = w.kills) := by
  have hlen : w.ui.selected_index.toNat < (sort_procs w.ui.sort_mode inp.procs).length := by
    rw [sort_procs_length]; omega
  have hget : (sort_procs w.ui.sort_mode inp.procs).getD w.ui.selected_index.toNat default
      = (sort_procs w.ui.sort_mode inp.procs)[w.ui.selected_index.toNat] := by
    simp [List.getElem?_eq_getElem hlen]
  refine ⟨(sort_procs w.ui.sort_mode inp.procs)[w.ui.selected_index.toNat],
    List.getElem?_eq_getElem hlen, ?_, ?_, ?_, ?_⟩
  · rw [handle_input_kill_key cap inp w hc hlo hhi]
    split <;> rfl
  · intro hk hy
    rw [handle_input_kill_key cap inp w hc hlo hhi, if_pos hy, if_pos hk, hget]
  · intro hk hy
    have hne : ¬ inp.ch = key 'k' := by rw [hk]; decide
    rw [handle_input_kill_key cap inp w hc hlo hhi, if_pos hy, if_neg hne, hget]
  · intro hy
    rw [handle_input_kill_key cap inp w hc hlo hhi, if_neg hy]

/-- On the example list under CPU order with the second row selected (pid 30), `k`
confirmed by `y` sends SIGTERM to pid 30, `K` confirmed by `Y` sends SIGKILL to pid 30,
and `k` answered by `n` sends nothing. -/
theorem handle_input_kill_confirmation_witness :
    (handle_input example_cap { ch := key 'k', procs := example_procs, reply := key 'y' }
        { ui := { selected_index := 1 } }).kills = [{ pid := 30, sig := 15 }] ∧
    (handle_input example_cap { ch := key 'K', procs := example_procs, reply := key 'Y' }
        { ui := { selected_index := 1 } }).kills = [{ pid := 30, sig := 9 }] ∧
    (handle_input example_cap { ch := key 'k', procs := example_procs, reply := key 'n' }
        { ui := { selected_index := 1 } }).kills = [] ∧
    (∃ p, (sort_procs SortMode.CPU example_procs)[(1 : Int).toNat]? = some p ∧
      (handle_input example_cap { ch := key 'k', procs := example_procs, reply := key 'y' }
        { ui := { selected_index := 1 } }).ui = { selected_index := 1 }) :=
  ⟨by decide, by decide, by decide,
    (handle_input_kill_confirmation example_cap
      { ch := key 'k', procs := example_procs, reply := key 'y' }
      { ui := { selected_index := 1 } } (Or.inl rfl) (by decide) (by decide)).imp
      (fun _ h => ⟨h.1, h.2.1⟩)⟩

/-- C8: a sort-mode key (`c`/`C`, `m`/`M`, `p`/`P`) sets `sort_mode` to CPU, MEM or PID
respectively and `selected_index` to 0 whatever it was, and changes nothing else
(`refresh_interval`, `running`, the sampler statics and the `kill` log stay as they were);
with pid 20 selected under CPU order on the example list, `m` leaves `selected_index = 0`,
which in MEM order is pid 30. -/
theorem handle_input_sort_key_resets_selection (cap : Nat) (inp : Input) (w : World) :
    ((inp.ch = key 'c' ∨ inp.ch = key 'C') →
      handle_input cap inp w =
        { w with ui := { w.ui with sort_mode := SortMode.CPU, selected_index := 0 } }) ∧
    ((inp.ch = key 'm' ∨ inp.ch = key 'M') →
      handle_input cap inp w =
        { w with ui := { w.ui with sort_mode := SortMode.MEM, selected_index := 0 } }) ∧
    ((inp.ch = key 'p' ∨ inp.ch = key 'P') →
      handle_input cap inp w =
        { w with ui := { w.ui with sort_mode := SortMode.PID, selected_index := 0 } }) ∧
    ((sort_procs SortMode.CPU example_procs)[(0 : Int).toNat]?.map (fun p => p.pid)
        = some 20 ∧
      (handle_input cap { ch := key 'm', procs := example_procs }
        { ui := { sort_mode := SortMode.CPU, selected_index := 0 } }).ui
        = { sort_mode := SortMode.MEM, selected_index := 0 } ∧
      (sort_procs SortMode.MEM example_procs)[(0 : Int).toNat]?.map (fun p => p.pid)
        = some 30) :=
  ⟨handle_input_cpu_key cap inp w, handle_input_mem_key cap inp w,
    handle_input_pid_key cap inp w, by decide,
    by rw [handle_input_mem_key cap _ _ (Or.inl rfl)], by decide⟩

/-- With the third row selected under PID order and a refresh interval of 7, `C`
switches to CPU order and puts the selection back on row 0. -/
theorem handle_input_sort_key_resets_selection_witness :
    ((key 'C' = key 'c' ∨ key 'C' = key 'C') ∧
    handle_input example_cap { ch := key 'C', procs := example_procs }
        { ui := { sort_mode := SortMode.PID, selected_index := 2, refresh_interval := 7 } }
      = { ui := { sort_mode := SortMode.CPU, selected_index := 0, refresh_interval := 7 } }) :=
  ⟨by decide,
   (handle_input_sort_key_resets_selection example_cap
      { ch := key 'C', procs := example_procs }
      { ui := { sort_mode := SortMode.PID, selected_index := 2, refresh_interval := 7 } }).1
      (by decide)⟩

/-! ## Start-up: the `-i` option (C4) -/

/-- The argument loop never ends with an interval below 1 when it starts from one that is
at least 1. -/
theorem parse_args_interval (stoi : String → Option Int) :
    ∀ (n : Nat) (args : List String) (d : Int) (s : String) (d2 : Int) (s2 : String),
      args.length ≤ n → 1 ≤ d → parse_args stoi args d s = Parsed.ok d2 s2 → 1 ≤ d2 := by
  intro n
  induction n with
  | zero =>
    intro args d s d2 s2 hl hd h
    have : args = [] := List.length_eq_zero.mp (by omega)
    subst this
    simp only [parse_args, Parsed.ok.injEq] at h
    omega
  | succ k ih =>
    intro args d s d2 s2 hl hd h
    match args, hl, h with
    | [], _, h =>
      simp only [parse_args, Parsed.ok.injEq] at h
      omega
    | [a], _, h =>
      simp only [parse_args] at h
      split at h
      · cases h
      · simp only [Parsed.ok.injEq] at h
        omega
    | a :: v :: rest, hl, h =>
      simp only [parse_args] at h
      simp only [List.length_cons] at hl
      split at h
      · split at h
        · cases h
        · rename_i m _
          refine ih rest (if m < 1 then 1 else m) s d2 s2 (by omega) ?_ h
          split <;> omega
      · split at h
        · exact ih rest d v d2 s2 (by omega) hd h
        · split at h
          · cases h
          · exact ih (v :: rest) d s d2 s2 (by simp only [List.length_cons]; omega) hd h

theorem startup_interval_ge_one (stoi : String → Option Int) (args : List String) (u : Ui)
    (h : startup stoi args = some u) : 1 ≤ u.refresh_interval := by
  unfold startup at h
  split at h
  · rename_i d s hp
    have hd : 1 ≤ d := parse_args_interval stoi args.length args 2 "cpu" d s le_rfl
      (by decide) hp
    simp only [Option.some.injEq] at h
    rw [← h]
    simp only [set_refresh_interval, if_pos (show d ≥ 1 from hd)]
    exact hd
  · cases h

theorem startup_single_interval (stoi : String → Option Int) (v : String) (n : Int)
    (hv : stoi v = some n) :
    startup stoi ["-i", v] = some { refresh_interval := if n < 1 then 1 else n } := by
  by_cases hn : n < 1
  · simp [startup, parse_args, hv, hn, set_sort_mode, set_refresh_interval]
  · have : n ≥ 1 := by omega
    simp [startup, parse_args, hv, hn, set_sort_mode, set_refresh_interval, this]

/-- C4 (as stated) fails: `-i 100` starts the dashboard with `refresh_interval = 100`,
above 30. -/
theorem startup_interval_exceeds_30 :
    ∃ u, startup stoi_example ["-i", "100"] = some u ∧ ¬ u.refresh_interval ≤ 30 :=
  ⟨{ refresh_interval := 100 }, by decide, by decide⟩

/-- C4 (amended): whatever the arguments, a Ui created at start-up has
`refresh_interval >= 1`; for a single `-i` option whose value `std::stoi` reads as `n`,
the Ui is created with `refresh_interval = 1` when `n < 1` and `refresh_interval = n`
otherwise (no upper bound is applied at start-up). -/
theorem startup_refresh_interval_lower_bound (stoi : String → Option Int) :
    (∀ (args : List String) (u : Ui), startup stoi args = some u → 1 ≤ u.refresh_interval) ∧
    (∀ (v : String) (n : Int), stoi v = some n →
      ∃ u, startup stoi ["-i", v] = some u ∧
        (n < 1 → u.refresh_interval = 1) ∧ (1 ≤ n → u.refresh_interval = n)) := by
  refine ⟨fun args u h => startup_interval_ge_one stoi args u h, ?_⟩
  intro v n hv
  refine ⟨_, startup_single_interval stoi v n hv, ?_, ?_⟩
  · intro h; simp only [if_pos h]
  · intro h; simp only [if_neg (show ¬ n < 1 by omega)]

/-- The options `-i 0` give a Ui with `refresh_interval = 1`, and `-s mem -i 5` one with
`refresh_interval = 5`, which is at least 1. -/
theorem startup_refresh_interval_lower_bound_witness :
    (stoi_example "0" = some 0 ∧
      ∃ u, startup stoi_example ["-i", "0"] = some u ∧ u.refresh_interval = 1) ∧
    (startup stoi_example ["-s", "mem", "-i", "5"]
        = some { sort_mode := SortMode.MEM, refresh_interval := 5 } ∧
      (1 : Int) ≤ 5) :=
  ⟨⟨by decide,
    ((startup_refresh_interval_lower_bound stoi_example).2 "0" 0 (by decide)).imp
      (fun _ h => ⟨h.1, h.2.1 (by decide)⟩)⟩,
   ⟨by decide,
    (startup_refresh_interval_lower_bound stoi_example).1 ["-s", "mem", "-i", "5"]
      { sort_mode := SortMode.MEM, refresh_interval := 5 } (by decide)⟩⟩

/-! ## The CPU sampler (C5, C6) -/

theorem ticks_total_lt (t : CpuTicks) : ticks_total t < 2 ^ 64 :=
  Nat.mod_lt _ (by norm_num)

theorem ticks_idle_lt (t : CpuTicks) : ticks_idle t < 2 ^ 64 :=
  Nat.mod_lt _ (by norm_num)

theorem u64_sub_zero (a : Nat) (h : a < 2 ^ 64) : u64_sub a 0 = a := by
  unfold u64_sub
  omega

/-- Counters that did not go backwards: the `uint64_t` difference is the ordinary one. -/
theorem u64_sub_of_le (a b : Nat) (ha : a < 2 ^ 64) (hb : b ≤ a) : u64_sub a b = a - b := by
  unfold u64_sub
  omega

/-- Counters that went backwards: the `uint64_t` difference wraps around. -/
theorem u64_sub_of_lt (a b : Nat) (hb : b < 2 ^ 64) (hab : a < b) :
    u64_sub a b = 2 ^ 64 - (b - a) := by
  unfold u64_sub
  omega

/-- The result of a successful read, by the three cases of the `uint64_t` difference of
the totals. -/
theorem get_cpu_usage_percent_some (t : CpuTicks) (st : CpuStatics) :
    get_cpu_usage_percent (some t) st =
      (if u64_sub (ticks_total t) st.prev_total = 0 then 0
        else 100 * (1 - (u64_sub (ticks_idle t) st.prev_idle : Rat) /
                        (u64_sub (ticks_total t) st.prev_total : Rat)),
       { prev_total := ticks_total t, prev_idle := ticks_idle t }) := by
  simp only [get_cpu_usage_percent]
  by_cases h : u64_sub (ticks_total t) st.prev_total = 0
  · rw [if_pos (by rw [h]; simp), if_pos h]
  · have hpos : (0 : Rat) < (u64_sub (ticks_total t) st.prev_total : Rat) := by
      exact_mod_cast Nat.pos_of_ne_zero h
    rw [if_neg (by linarith), if_neg h]

/-- With counters that did not go backwards the sampler computes the specification's
formula over the ordinary differences and stores the new pair. -/
theorem get_cpu_usage_percent_forward (t : CpuTicks) (st : CpuStatics)
    (ht : st.prev_total ≤ ticks_total t) (hi : st.prev_idle ≤ ticks_idle t) :
    get_cpu_usage_percent (some t) st =
      (if ((ticks_total t : Int) - st.prev_total) > 0 then
          100 * (1 - (((ticks_idle t : Int) - st.prev_idle : Int) : Rat) /
                      (((ticks_total t : Int) - st.prev_total : Int) : Rat))
        else 0,
       { prev_total := ticks_total t, prev_idle := ticks_idle t }) := by
  rw [get_cpu_usage_percent_some, u64_sub_of_le _ _ (ticks_total_lt t) ht,
    u64_sub_of_le _ _ (ticks_idle_lt t) hi]
  by_cases h : ticks_total t - st.prev_total = 0
  · rw [if_pos h, if_neg (by omega)]
  · rw [if_neg h, if_pos (by omega)]
    push_cast [Nat.cast_sub ht, Nat.cast_sub hi]
    rfl

/-- C5 (as stated) fails: on the first call, with a user counter of 1 and an idle counter
of 1, the sampler returns 50, not 0. -/
theorem first_call_cpu_percent_nonzero :
    (get_cpu_usage_percent (some { user := 1, system := 0, idle := 1, nice := 0 }) {}).1 = 50 ∧
    (get_cpu_usage_percent (some { user := 1, system := 0, idle := 1, nice := 0 }) {}).1 ≠ 0 := by
  norm_num [get_cpu_usage_percent, u64_sub, ticks_total, ticks_idle]

/-- C5 (amended): on the first call (stored counters `0, 0`) the sampler returns
`100 * (1 - idle / total)` over the counters accumulated so far, with
`total = user + system + idle + nice` as a 64-bit sum, when `total > 0`; it returns 0
when `total = 0` and when the counters cannot be read; after a successful read the stored
pair is `(total, idle)`. -/
theorem first_call_cpu_percent (t : CpuTicks) :
    get_cpu_usage_percent (some t) {} =
      (if ticks_total t = 0 then 0
        else 100 * (1 - (ticks_idle t : Rat) / (ticks_total t : Rat)),
       { prev_total := ticks_total t, prev_idle := ticks_idle t }) ∧
    get_cpu_usage_percent none {} = (0, {}) := by
  refine ⟨?_, rfl⟩
  rw [get_cpu_usage_percent_some]
  show (if u64_sub (ticks_total t) 0 = 0 then (0 : Rat)
        else 100 * (1 - (u64_sub (ticks_idle t) 0 : Rat) / (u64_sub (ticks_total t) 0 : Rat)),
       ({ prev_total := ticks_total t, prev_idle := ticks_idle t } : CpuStatics)) = _
  rw [u64_sub_zero _ (ticks_total_lt t), u64_sub_zero _ (ticks_idle_lt t)]

/-- C6 (the code at the failing input): after a first read with
`user = 7, idle = 3` the stored pair is `(10, 3)`; a second read with
`user = 1, system = 1, idle = 3, nice = 0` has `total_now = 5`, the `uint64_t` difference
`5 - 10` wraps to `2 ^ 64 - 5`, and the sampler returns 100 where
`total_now - previous_total = -5` is not greater than 0.  The same happens when a 32-bit
tick counter of the host wraps: from the stored pair `(4294967298, 3)`, left by
`user = 4294967295`, the read `user = 1, idle = 3` returns 100. -/
theorem get_cpu_usage_percent_backward_total :
    (get_cpu_usage_percent (some { user := 7, system := 0, idle := 3, nice := 0 }) {}).2
      = { prev_total := 10, prev_idle := 3 } ∧
    ticks_total { user := 1, system := 1, idle := 3, nice := 0 } = 5 ∧
    u64_sub 5 10 = 2 ^ 64 - 5 ∧
    get_cpu_usage_percent (some { user := 1, system := 1, idle := 3, nice := 0 })
        { prev_total := 10, prev_idle := 3 }
      = (100, { prev_total := 5, prev_idle := 3 }) ∧
    (get_cpu_usage_percent
        (some { user := 4294967295, system := 0, idle := 3, nice := 0 }) {}).2
      = { prev_total := 4294967298, prev_idle := 3 } ∧
    get_cpu_usage_percent (some { user := 1, system := 0, idle := 3, nice := 0 })
        { prev_total := 4294967298, prev_idle := 3 }
      = (100, { prev_total := 4, prev_idle := 3 }) := by
  refine ⟨by decide, by decide, by decide, ?_, by decide, ?_⟩
  · norm_num [get_cpu_usage_percent, u64_sub, ticks_total, ticks_idle]
  · norm_num [get_cpu_usage_percent, u64_sub, ticks_total, ticks_idle]

/-! ## `pad_or_trim` (C10) -/

/-- For a column budget of at least 3 within the string capacity the helper fills the
column exactly: a name longer than `width` becomes its first `width - 3` characters
followed by `...`, a name that fits is followed by spaces up to `width`. -/
theorem pad_or_trim_fits (cap : Nat) (s : String) (width : Nat) (h3 : 3 ≤ width)
    (hw : width < 2 ^ 64) (hcap : width ≤ cap) :
    ∃ text, pad_or_trim cap s width = some text ∧ text.length = width ∧
      (s.length > width → text = String.mk (s.data.take (width - 3)) ++ "...") ∧
      (s.length ≤ width → text = s ++ String.mk (List.replicate (width - s.length) ' ')) := by
  have hm : (width + 2 ^ 64 - 3) % 2 ^ 64 = width - 3 := by omega
  have hdots : ("..." : String).length = 3 := rfl
  by_cases hs : s.length > width
  · refine ⟨String.mk (s.data.take (width - 3)) ++ "...", ?_, ?_, fun _ => rfl,
      fun h => absurd hs (by omega)⟩
    · simp only [pad_or_trim, if_pos hs, hm]
    · have hd : s.data.length = s.length := rfl
      rw [String.length_append, hdots]
      show (s.data.take (width - 3)).length + 3 = width
      rw [List.length_take]
      omega
  · have e : pad_or_trim cap s width
        = some (s ++ String.mk (List.replicate (width - s.length) ' ')) := by
      simp only [pad_or_trim, if_neg hs, pad_loop_eq]
      by_cases h1 : width ≤ s.length
      · have h0 : width - s.length = 0 := by omega
        have e0 : s ++ String.mk (List.replicate 0 ' ') = s := by
          apply String.ext
          simp
        rw [if_pos h1, h0, e0]
      · rw [if_neg h1, if_pos hcap]
    refine ⟨_, e, ?_, fun h => absurd h hs, fun _ => rfl⟩
    rw [String.length_append]
    show s.length + (List.replicate (width - s.length) ' ').length = width
    rw [List.length_replicate]
    omega

/-- C10 (the code at the failing input): for the name `abcd` and a column budget of 2 the
`size_t` subtraction `width - 3` wraps, `substr` keeps the whole name and the result is
`abcd...`, 7 characters for a budget of 2; `draw_processes` passes such a budget in a
52-column terminal, where the COMMAND text of `launchd` is `launchd...`. -/
theorem pad_or_trim_overflows_narrow_budget (cap : Nat) :
    pad_or_trim cap "abcd" 2 = some "abcd..." ∧
    (pad_or_trim cap "abcd" 2).map String.length = some 7 ∧
    command_width 52 = 2 ∧
    (draw_processes cap [{ pid := 1, name := "launchd" }] 24 52 {}).2.1.map
        (fun d => d.command) = ["launchd..."] := by
  refine ⟨rfl, rfl, by decide, ?_⟩
  rfl

end SysMon
